import Mathlib

/-!
Verification development for the README-generation core of the NEXUS repository
(`src/app/api/generate-readme/route.ts`).

Two components are embedded, faithfully translated from the TypeScript source:

* the Selector: the pure part of `getCandidateFiles` (filter → score → stable
  sort by descending score → greedy budgeted selection), lines 56–91;
* the Normalizer: `normalizeMarkdown`, lines 122–206, an ordered chain of
  JavaScript `String.replace` passes plus an explicit table-reconstruction loop.

Strings are modelled as `List Char` (with `String` wrappers at the interface).
Each JavaScript regular-expression replacement is embedded as a specialized
scanner that is equivalent to the ECMAScript leftmost-match backtracking
semantics of that concrete pattern; every such specialization is justified in a
comment next to its definition.  `String.prototype.trim` and the regex class
`\s` use the ECMAScript WhiteSpace/LineTerminator set, embedded in `jsWS`.
`toLowerCase` is embedded on its ASCII fragment (all list constants and all
inputs appearing in theorems below are ASCII).  Line boundaries for the
multiline (`/m`) anchors are modelled at `'\n'` only — the same convention the
source itself uses in its `split('\n')` table pass; the additional ECMAScript
line terminators (`\r`, U+2028, U+2029) do not occur in any input evaluated
below.
-/

namespace Nexus

/-- ECMAScript whitespace: the set matched by `\s` and trimmed by
`String.prototype.trim` (WhiteSpace ∪ LineTerminator). -/
def jsWS (c : Char) : Bool :=
  c == ' ' || c == '\t' || c == '\n' || c == '\r' || c == '\x0b' || c == '\x0c' ||
  c == '\u00a0' || c == '\u1680' || ('\u2000' ≤ c && c ≤ '\u200a') ||
  c == '\u2028' || c == '\u2029' || c == '\u202f' || c == '\u205f' ||
  c == '\u3000' || c == '\ufeff'

/-- Drop ECMAScript whitespace from the front of a character list. -/
def jsTrimLeft (l : List Char) : List Char := l.dropWhile jsWS

/-- Drop ECMAScript whitespace from the end of a character list. -/
def jsTrimRight (l : List Char) : List Char := (l.reverse.dropWhile jsWS).reverse

/-- `String.prototype.trim`. -/
def jsTrim (l : List Char) : List Char := jsTrimRight (jsTrimLeft l)

/-- `String.prototype.toLowerCase`, ASCII fragment (`Char.toLower` lowers
exactly the ASCII uppercase letters). -/
def jsLower (l : List Char) : List Char := l.map Char.toLower

/-- `String.prototype.endsWith`: suffix test on character lists. -/
def endsWithCh (s suf : List Char) : Bool := suf == s.drop (s.length - suf.length)

/-- `String.prototype.includes`: substring test on character lists. -/
def hasInfix (pat : List Char) : List Char → Bool
  | [] => pat.isPrefixOf ([] : List Char)
  | c :: t => pat.isPrefixOf (c :: t) || hasInfix pat t

/-- `String.prototype.split(sep)` for a one-character separator; returns the
(possibly empty) segments between separator occurrences, as JavaScript does
(`"".split(c) = [""]`, `"|".split('|') = ["", ""]`). -/
def splitOnChar (sep : Char) : List Char → List (List Char)
  | [] => [[]]
  | c :: t =>
    if c == sep then [] :: splitOnChar sep t
    else
      match splitOnChar sep t with
      | h :: r => (c :: h) :: r
      | [] => [[c]]

/-- Split on newline characters (`s.split('\n')`). -/
def splitNl (l : List Char) : List (List Char) := splitOnChar '\n' l

/-- `Array.prototype.join('\n')`. -/
def joinNl (ls : List (List Char)) : List Char := List.intercalate ['\n'] ls

/-! ### The Selector (`getCandidateFiles`, pure core) -/

/-- One node of the repository tree returned by the git trees API:
`{ path, type, size? }`. -/
structure TreeNode where
  path : String
  type : String
  size : Option Nat
deriving DecidableEq, Repr

/-- A file kept by the filter stage: `{ path, size? }`. -/
structure FileEntry where
  path : String
  size : Option Nat
deriving DecidableEq, Repr

/-- One selected file as pushed by the selection loop:
`{ path: f.path, size }` where `size = f.size ?? 0`. -/
structure SelEntry where
  path : String
  size : Nat
deriving DecidableEq, Repr

/-- `const exts = ['.ts', '.tsx', …]` (line 56 of the source). -/
def exts : List String :=
  [".ts", ".tsx", ".js", ".jsx", ".py", ".rs", ".go", ".rb", ".java", ".cs",
   ".php", ".kt", ".swift", ".md", ".json", ".yml", ".yaml"]

/-- `const importantNames = ['README.md', …]` (line 57 of the source). -/
def importantNames : List String :=
  ["README.md", "readme.md", "package.json", "requirements.txt",
   "pyproject.toml", "Cargo.toml", "go.mod", "pom.xml", "composer.json",
   "Makefile", "Dockerfile", "docker-compose.yml", "pnpm-lock.yaml",
   "yarn.lock"]

/-- `f.path.split('/').pop() || ''`: the last `/`-separated component of a
path (the whole path when it has no `/`; the empty string after a trailing
`/`), computed as the longest `/`-free suffix, which is exactly the last
element of `split('/')`. -/
def baseName (p : String) : String :=
  ⟨(p.data.reverse.takeWhile (fun c => c != '/')).reverse⟩

/-- Filter-stage predicate (line 60):
`importantNames.includes(f.path.split('/').pop() || '') || exts.some(e => f.path.endsWith(e))`. -/
def keepFile (p : String) : Bool :=
  importantNames.contains (baseName p) ||
  exts.any (fun e => endsWithCh p.data e.data)

/-- The `package.json` summand of the score (line 71):
`if (p.endsWith('package.json')) score += 40;` where `p` is the lowercased
path.  Takes the already-lowercased path. -/
def pkgBonus (q : List Char) : Nat :=
  if endsWithCh q "package.json".data then 40 else 0

/-- Scoring stage (lines 63–75): additive rules over the lowercased path. -/
def scoreOf (path : String) : Nat :=
  let q := jsLower path.data
  (if q == "readme.md".data then 100 else 0) +
  (if hasInfix "readme".data q then 20 else 0) +
  (if "docs/".data.isPrefixOf q then 30 else 0) +
  (if !hasInfix "/".data q then 25 else 0) +
  (if endsWithCh q ".md".data then 15 else 0) +
  pkgBonus q +
  (if endsWithCh q "dockerfile".data then 20 else 0) +
  (if endsWithCh q ".ts".data || endsWithCh q ".tsx".data ||
      endsWithCh q ".js".data || endsWithCh q ".jsx".data then 5 else 0)

/-- The comparator order of `.sort((a, b) => b.score - a.score)`:
`a` precedes `b` when `a`'s score is at least `b`'s. -/
def scoreGE (a b : FileEntry × Nat) : Prop := b.2 ≤ a.2

instance : DecidableRel scoreGE := fun a b => Nat.decLe b.2 a.2

instance : IsTotal (FileEntry × Nat) scoreGE := ⟨fun a b => Nat.le_total b.2 a.2⟩

instance : IsTrans (FileEntry × Nat) scoreGE :=
  ⟨fun _ _ _ h h' => Nat.le_trans h' h⟩

/-- `MAX_FILES = 40` (line 79). -/
def MAX_FILES : Nat := 40

/-- `MAX_TOTAL_BYTES = 600_000` (line 80). -/
def MAX_TOTAL_BYTES : Nat := 600000

/-- Selection stage (lines 81–90): greedy loop over the scored, sorted list.
`break` when the selection is full; `continue` past a file above 150 000 bytes
or one that would push the running total over `MAX_TOTAL_BYTES`; otherwise push
`{ path: f.path, size }` and add `size` to the total. -/
def selectLoop : List (FileEntry × Nat) → List SelEntry → Nat → List SelEntry
  | [], sel, _ => sel
  | f :: rest, sel, total =>
    let size := f.1.size.getD 0
    if MAX_FILES ≤ sel.length then sel
    else if 150000 < size then selectLoop rest sel total
    else if MAX_TOTAL_BYTES < total + size then selectLoop rest sel total
    else selectLoop rest (sel ++ [⟨f.1.path, size⟩]) (total + size)

/-- Stable sort by descending score.  ECMAScript `Array.prototype.sort` with a
consistent comparator is required to be stable, which determines the output
uniquely from the preorder; `List.insertionSort` is that stable sort. -/
def sortStage (l : List (FileEntry × Nat)) : List (FileEntry × Nat) :=
  List.insertionSort scoreGE l

/-- The scored list before sorting (lines 59–75). -/
def scoredStage (tree : List TreeNode) : List (FileEntry × Nat) :=
  (((tree.filter (fun n => n.type == "blob")).map
      (fun n => (⟨n.path, n.size⟩ : FileEntry))).filter
      (fun f => keepFile f.path)).map (fun f => (f, scoreOf f.path))

/-- The pure core of `getCandidateFiles` (lines 56–91): the two network calls
produce `tree`; everything after is this function. -/
def getCandidateFiles (tree : List TreeNode) : List SelEntry :=
  selectLoop (sortStage (scoredStage tree)) [] 0

/-! ### The Normalizer (`normalizeMarkdown`)

Each `s.replace(regex, …)` pass is embedded as a left-to-right scanner: at each
position the specialized matcher `find` is tried; on a match the replacement is
emitted and scanning resumes after the matched text, exactly the ECMAScript
global-replace discipline (every pattern below matches at least one character,
so the zero-length-match rule never applies; non-global passes are embedded
directly).  The `fuel` argument only bounds recursion; it is initialized to the
string length and every step consumes at least one input character, so it never
runs out before the input does. -/

/-- Generic global-replace scanner.  `find` attempts a match at the head of the
remaining input and returns the replacement text and the input remaining after
the matched text. -/
def scanRepl (find : List Char → Option (List Char × List Char)) :
    Nat → List Char → List Char
  | _, [] => []
  | 0, s => s
  | fuel + 1, c :: cs =>
    match find (c :: cs) with
    | some (rep, rest) => rep ++ scanRepl find fuel rest
    | none => c :: scanRepl find fuel cs

/-- Global-replace scanner for a `^`-anchored multiline pattern: `find` is only
tried where `^` holds (start of input or just after a newline).  Used only for
the badge-run pass, whose every match ends with a literal newline, so the
position after a match is again a line start. -/
def scanReplLS (find : List Char → Option (List Char × List Char)) :
    Nat → Bool → List Char → List Char
  | _, _, [] => []
  | 0, _, s => s
  | fuel + 1, atLS, c :: cs =>
    match (if atLS then find (c :: cs) else none) with
    | some (rep, rest) => rep ++ scanReplLS find fuel true rest
    | none => c :: scanReplLS find fuel (c == '\n') cs

/-- Split at the first occurrence of `target`: returns the characters before it
and the characters after it.  `none` when `target` does not occur.  This is the
deterministic reading of `[^t]*t` (the class cannot cross `t`, so the greedy
run ends exactly at the first `t`). -/
def splitAtChar (target : Char) : List Char → Option (List Char × List Char)
  | [] => none
  | c :: cs =>
    if c == target then some ([], cs)
    else (splitAtChar target cs).map (fun p => (c :: p.1, p.2))

/-- Strip an exact literal from the front. -/
def stripLit : List Char → List Char → Option (List Char)
  | [], s => some s
  | p :: ps, c :: cs => if c == p then stripLit ps cs else none
  | _ :: _, [] => none

/-- Strip a literal from the front, ASCII-case-insensitively (the `/i` flag);
the pattern is given in lowercase. -/
def stripCI : List Char → List Char → Option (List Char)
  | [], s => some s
  | p :: ps, c :: cs => if c.toLower == p then stripCI ps cs else none
  | _ :: _, [] => none

/-- Pass 1a (line 126): `s.replace(/^```markdown\s*\n?/i, '')`.  Anchored at
the string start, non-global.  The greedy `\s*` absorbs every whitespace
character after the literal (newlines included), after which `\n?` necessarily
matches empty, so the match is the literal plus the maximal whitespace run. -/
def stripLeadingMarkdownFence (s : List Char) : List Char :=
  match stripLit "```".data s with
  | some r =>
    match stripCI "markdown".data r with
    | some r2 => r2.dropWhile jsWS
    | none => s
  | none => s

/-- Pass 1b (line 126): `.replace(/\n?```\s*$/i, '')`, non-global.  A match is
an optional newline, the three backticks, and a whitespace run extending to the
end of the string; the backticks are not whitespace, so the only candidate is
the final three backticks once trailing whitespace is ignored, the optional
newline being taken when present (the leftmost match includes it). -/
def stripTrailingFence (s : List Char) : List Char :=
  let t := s.reverse.dropWhile jsWS
  match t with
  | '`' :: '`' :: '`' :: t2 =>
    match t2 with
    | '\n' :: t3 => t3.reverse
    | _ => t2.reverse
  | _ => s

/-- Pass 1 (line 126), both replaces chained: the outer-fence-strip pass.
Note the two replaces are independent: the trailing `` ``` `` is removed
whether or not the text started with a ```` ```markdown ```` line. -/
def stripOuterFence (s : List Char) : List Char :=
  stripTrailingFence (stripLeadingMarkdownFence s)

/-- Recognize `</h𝑑>` (case-insensitive `h`, exact digit `𝑑` for the
backreference `\1`) at the head; returns the input after the tag. -/
def matchCloseTag (d : Char) : List Char → Option (List Char)
  | '<' :: '/' :: h :: d' :: '>' :: rest =>
    if h.toLower == 'h' && d' == d then some rest else none
  | _ => none

/-- Lazy search (`[\s\S]*?`) for the earliest matching close tag: returns the
body before it and the input after it. -/
def findCloseTag (d : Char) : List Char → Option (List Char × List Char)
  | [] => none
  | c :: cs =>
    match matchCloseTag d (c :: cs) with
    | some rest => some ([], rest)
    | none => (findCloseTag d cs).map (fun p => (c :: p.1, p.2))

/-- Pass 2 (lines 129–132): `/<h([1-6])[^>]*>([\s\S]*?)<\/h\1>/gi` replaced by
``` `\n${hashes} ${text.trim()}\n` ``` with `hashes = '#'.repeat(level)`. -/
def findHeading : List Char → Option (List Char × List Char)
  | '<' :: c1 :: d :: rest =>
    if c1.toLower == 'h' && '1' ≤ d && d ≤ '6' then
      match splitAtChar '>' rest with
      | some (_, afterOpen) =>
        match findCloseTag d afterOpen with
        | some (body, rest') =>
          some ('\n' :: (List.replicate (d.toNat - '0'.toNat) '#' ++
            ' ' :: jsTrim body ++ ['\n']), rest')
        | none => none
      | none => none
    else none
  | _ => none

/-- Passes 3a/3c (lines 134–135): `/<div[^>]*>\s*/gi` and `/<center[^>]*>\s*/gi`
replaced by `'\n'`; `name` is the tag name in lowercase. -/
def findTagOpenStrip (name : List Char) : List Char → Option (List Char × List Char)
  | '<' :: rest =>
    match stripCI name rest with
    | some r2 =>
      match splitAtChar '>' r2 with
      | some (_, after) => some (['\n'], after.dropWhile jsWS)
      | none => none
    | none => none
  | _ => none

/-- Passes 3b/3d (lines 134–135): `/\s*<\/div>/gi` and `/\s*<\/center>/gi`
replaced by `'\n'`.  The `\s*` run before the tag is maximal: the tag starts
with `<`, which is not whitespace, so no shorter run can be followed by the
tag, and the scanner reaches the run's first character first (leftmost). -/
def findTagCloseStrip (name : List Char) (s : List Char) :
    Option (List Char × List Char) :=
  match s.dropWhile jsWS with
  | '<' :: '/' :: r2 =>
    match stripCI name r2 with
    | some ('>' :: r3) => some (['\n'], r3)
    | _ => none
  | _ => none

/-- Pass 4 (line 137): `/<br\s*\/?>(\s*)/gi` replaced by `'\n'` (the captured
trailing whitespace is consumed and discarded). -/
def findBr : List Char → Option (List Char × List Char)
  | '<' :: rest =>
    match stripCI "br".data rest with
    | some r2 =>
      let r3 := r2.dropWhile jsWS
      let r4 := match r3 with
        | '/' :: t => t
        | _ => r3
      match r4 with
      | '>' :: r5 => some (['\n'], r5.dropWhile jsWS)
      | _ => none
    | none => none
  | _ => none

/-- Pass 5 (line 139): `/<\/?p[^>]*>/gi` replaced by `'\n'` (note this also
matches `<pre …>`-style tags, faithfully to the source). -/
def findPTag : List Char → Option (List Char × List Char)
  | '<' :: '/' :: c :: rest =>
    if c.toLower == 'p' then (splitAtChar '>' rest).map (fun p => (['\n'], p.2))
    else none
  | '<' :: c :: rest =>
    if c.toLower == 'p' then (splitAtChar '>' rest).map (fun p => (['\n'], p.2))
    else none
  | _ => none

/-- Pass 6 (line 141): `/^(\s*)([-*+])(\S)/gm` replaced by `'$1$2 $3'`,
processed per line.  A match starts at a line start; its `\s*` may span
newlines, but since `$1` is emitted verbatim and the other groups lie on the
bullet's own line, the per-line rewrite (insert a space when the first
non-whitespace character of a line is a bullet followed by non-whitespace)
produces the identical string. -/
def fixBulletLine (line : List Char) : List Char :=
  let w := line.takeWhile jsWS
  match line.dropWhile jsWS with
  | b :: c2 :: rest =>
    if (b == '-' || b == '*' || b == '+') && !jsWS c2 then
      w ++ b :: ' ' :: c2 :: rest
    else line
  | _ => line

/-- Pass 7a (line 144): `/([^\n])\n(#{1,6} )/g` replaced by `'$1\n\n$2'`.  The
greedy bounded repetition forces the hash run after the newline to be matched
whole, so a match requires that run to have length 1–6 and be followed by a
space. -/
def findBeforeHeading : List Char → Option (List Char × List Char)
  | c :: '\n' :: rest =>
    if c == '\n' then none
    else
      let hs := rest.takeWhile (fun x => x == '#')
      let n := hs.length
      if 1 ≤ n && n ≤ 6 && (rest.drop n).head? == some ' ' then
        some (c :: '\n' :: '\n' :: (hs ++ [' ']), rest.drop (n + 1))
      else none
  | _ => none

/-- Pass 7b (line 145): `/([^\n])\n(\s*[-*+] )/g` replaced by `'$1\n\n$2'`.
The `\s*` run is maximal (a bullet is not whitespace). -/
def findBeforeList : List Char → Option (List Char × List Char)
  | c :: '\n' :: rest =>
    if c == '\n' then none
    else
      let w := rest.takeWhile jsWS
      match rest.drop w.length with
      | b :: ' ' :: r2 =>
        if b == '-' || b == '*' || b == '+' then
          some (c :: '\n' :: '\n' :: (w ++ [b, ' ']), r2)
        else none
      | _ => none
  | _ => none

/-- Pass 7c (line 146): `/([^\n])\n(```)/g` replaced by `'$1\n\n$2'`. -/
def findBeforeFence : List Char → Option (List Char × List Char)
  | c :: '\n' :: '`' :: '`' :: '`' :: rest =>
    if c == '\n' then none else some ([c, '\n', '\n', '`', '`', '`'], rest)
  | _ => none

/-- Pass 7d (line 147): `/([^\n])\n(> )/g` replaced by `'$1\n\n$2'`. -/
def findBeforeQuote : List Char → Option (List Char × List Char)
  | c :: '\n' :: '>' :: ' ' :: rest =>
    if c == '\n' then none else some ([c, '\n', '\n', '>', ' '], rest)
  | _ => none

/-- Passes 8 and 9c (lines 149 and 154): `/\n{3,}/g` and `/\n\n\n+/g` (the same
language) replaced by `'\n\n'`: a maximal newline run of length ≥ 3 collapses
to two. -/
def findBlankRun3 : List Char → Option (List Char × List Char)
  | '\n' :: '\n' :: '\n' :: rest =>
    some (['\n', '\n'], rest.dropWhile (fun c => c == '\n'))
  | _ => none

/-- `[ \t]` (space or tab). -/
def isSpTab (c : Char) : Bool := c == ' ' || c == '\t'

/-- `[a-zA-Z0-9_-]`: a language-tag character. -/
def isLangChar (c : Char) : Bool :=
  ('a' ≤ c && c ≤ 'z') || ('A' ≤ c && c ≤ 'Z') || ('0' ≤ c && c ≤ '9') ||
  c == '_' || c == '-'

/-- Pass 9a (line 152): `/^[ \t]*```[ \t]*([a-zA-Z0-9_-]+)?[ \t]*$/gm` with
callback ``` (m, lang) => `\n\n\`\`\`${lang ? lang.trim() : ''}\n` ```.  Both
anchors and all classes are line-local, so each match is exactly a full line
and the pass is a per-line rewrite; scanning happens on the original string, so
newlines in the replacement do not feed later matches of the same pass.
Returns the language token (empty when absent; `lang.trim()` is the token
itself, which contains no whitespace) when the line matches. -/
def fenceOpenLang (line : List Char) : Option (List Char) :=
  match stripLit "```".data (line.dropWhile isSpTab) with
  | some r2 =>
    let r3 := r2.dropWhile isSpTab
    let tok := r3.takeWhile isLangChar
    if (r3.drop tok.length).dropWhile isSpTab == [] then some tok else none
  | none => none

/-- Per-line action of pass 9a. -/
def fenceOpenLine (line : List Char) : List Char :=
  match fenceOpenLang line with
  | some tok => '\n' :: '\n' :: '`' :: '`' :: '`' :: (tok ++ ['\n'])
  | none => line

/-- Pass 9b (line 153): `/^[ \t]*```[ \t]*$/gm` replaced by `'```'`,
per line for the same reason as pass 9a. -/
def fenceCloseLine (line : List Char) : List Char :=
  match stripLit "```".data (line.dropWhile isSpTab) with
  | some r2 => if r2.dropWhile isSpTab == [] then "```".data else line
  | none => line

/-- A badge image reference `!\[[^\]]*\]\([^\)]+\)`: returns the matched text
and the rest.  The alt text runs to the first `]`, the URL (nonempty) to the
first `)`. -/
def parseBadge : List Char → Option (List Char × List Char)
  | '!' :: '[' :: rest =>
    match splitAtChar ']' rest with
    | some (alt, r2) =>
      match r2 with
      | '(' :: r3 =>
        match splitAtChar ')' r3 with
        | some (url, r4) =>
          if url == [] then none
          else some ('!' :: '[' :: (alt ++ ']' :: '(' :: url ++ [')']), r4)
        | none => none
      | _ => none
    | none => none
  | _ => none

/-- Pass 10 (line 157):
`/\[\[[^\]]+\]\]\((https?:\/\/img\.shields\.io\/[^)]+)\)/g` replaced by
`'![]($1)'` (case-sensitive: no `/i` flag).  After `http` the greedy `s?`
takes an `s` exactly when one is present; if the remainder then fails, the
backtracked alternative also fails (`:` is not `s`), so the test is
deterministic. -/
def findBadgeBrackets : List Char → Option (List Char × List Char)
  | '[' :: '[' :: rest =>
    match splitAtChar ']' rest with
    | some (inner, r2) =>
      if inner == [] then none
      else
        match r2 with
        | ']' :: '(' :: r3 =>
          match stripLit "http".data r3 with
          | some r4 =>
            let sr : List Char × List Char := match r4 with
              | 's' :: t => (['s'], t)
              | _ => ([], r4)
            match stripLit "://img.shields.io/".data sr.2 with
            | some r6 =>
              match splitAtChar ')' r6 with
              | some (mid, r7) =>
                if mid == [] then none
                else
                  some ("![](".data ++ ("http".data ++ sr.1 ++
                    "://img.shields.io/".data ++ mid) ++ [')'], r7)
              | none => none
            | none => none
          | none => none
        | _ => none
    | none => none
  | _ => none

/-- Pass 11 (line 159):
`/(!\[[^\]]*\]\([^\)]+\))(\s*)(!\[[^\]]*\]\([^\)]+\))/g` replaced by
`'$1\n$3'` (the whitespace between the two badges is consumed and dropped).
The `\s*` run is maximal: `!` is not whitespace. -/
def findAdjBadges (s : List Char) : Option (List Char × List Char) :=
  match parseBadge s with
  | some (b1, r) =>
    match parseBadge (r.dropWhile jsWS) with
    | some (b2, rest) => some (b1 ++ '\n' :: b2, rest)
    | none => none
  | none => none

/-- The whitespace run at the head of `r`, cut just after its last newline:
this is what `\s*\n` consumes (greedy `\s*`, then backtracking until the
literal newline fits).  `none` when the maximal whitespace run contains no
newline. -/
def wsThroughLastNl (r : List Char) : Option (List Char × List Char) :=
  let w := r.takeWhile jsWS
  let tailNoNl := w.reverse.takeWhile (fun c => c != '\n')
  if tailNoNl.length == w.length then none
  else
    let n := w.length - tailNoNl.length
    some (r.take n, r.drop n)

/-- One repetition of the pass-12 group `(?:^!\[[^\]]*\]\([^\)]+\)\s*\n)`:
a badge at a line start followed by whitespace up to and including a newline
(so the next repetition again sits at a line start). -/
def parseBadgeUnit (s : List Char) : Option (List Char × List Char) :=
  match parseBadge s with
  | some (b, r) =>
    match wsThroughLastNl r with
    | some (w, rest) => some (b ++ w, rest)
    | none => none
  | none => none

/-- Greedy repetition of badge units; returns consumed text, rest, and the
count.  Fuel-bounded (each unit consumes at least one character). -/
def badgeUnits : Nat → List Char → List Char × List Char × Nat
  | 0, s => ([], s, 0)
  | fuel + 1, s =>
    match parseBadgeUnit s with
    | some (c, r) =>
      let (c2, r2, n) := badgeUnits fuel r
      (c ++ c2, r2, n + 1)
    | none => ([], s, 0)

/-- `String.prototype.split(/\n+/)` (fuel-bounded; every step consumes at
least one character, so fuel = length never runs out). -/
def splitNlRunsF : Nat → List Char → List (List Char)
  | _, [] => [[]]
  | 0, s => [s]
  | fuel + 1, '\n' :: t => [] :: splitNlRunsF fuel (t.dropWhile (fun x => x == '\n'))
  | fuel + 1, c :: t =>
    match splitNlRunsF fuel t with
    | h :: r => (c :: h) :: r
    | [] => [[c]]

/-- `String.prototype.split(/\n+/)`: segments between maximal newline runs. -/
def splitNlRuns (l : List Char) : List (List Char) := splitNlRunsF l.length l

/-- Pass 12 (line 162): `/(?:^!\[[^\]]*\]\([^\)]+\)\s*\n){2,}/gm` with
callback `block => block.trim().split(/\n+/).join(' ') + "\n\n"`.  Tried only
at line starts (the `^` inside the group). -/
def findBadgeRun (s : List Char) : Option (List Char × List Char) :=
  let (consumed, rest, n) := badgeUnits s.length s
  if 2 ≤ n then
    some ((List.intercalate [' '] (splitNlRuns (jsTrim consumed))) ++
      ['\n', '\n'], rest)
  else none

/-- Lookahead body of pass 13, `\|?\s*-`: holds when, after an optional
leading `|`, the first non-whitespace character is `-` (the backtracking
search over `\s*` reaches exactly the first non-whitespace position, and the
branch that skips a leading `|` cannot succeed when one is present since `|`
is neither whitespace nor `-`). -/
def lookaheadSepish (l : List Char) : Bool :=
  match l with
  | '|' :: t => (t.dropWhile jsWS).head? == some '-'
  | _ => (l.dropWhile jsWS).head? == some '-'

/-- `'|' + Array(cols).fill('---').join('|') + '|'`. -/
def sepOfCols (n : Nat) : List Char :=
  '|' :: (List.intercalate ['|'] (List.replicate n "---".data)) ++ ['|']

/-- `header.split('|').filter(Boolean).length`. -/
def countCols (line : List Char) : Nat :=
  ((splitOnChar '|' line).filter (fun seg => seg != [])).length

/-- Pass 13 (lines 165–169): `/\n(\|[^\n]*\|)\n(?!\|?\s*-)/g` with callback
inserting a synthesized separator row: replacement
``` `\n${header}\n${sep}\n` ```.  The group is a full line that begins and
ends with `|` (the trailing `\n` forces the second `\|` to be the line's last
character; `[^\n]*` cannot cross the newline). -/
def findTableSep : List Char → Option (List Char × List Char)
  | '\n' :: rest =>
    match splitAtChar '\n' rest with
    | some (line, after) =>
      if line.head? == some '|' && line.getLast? == some '|' &&
          2 ≤ line.length then
        if lookaheadSepish after then none
        else
          some ('\n' :: line ++ '\n' :: (sepOfCols (countCols line) ++ ['\n']),
            after)
      else none
    | none => none
  | _ => none

/-- The lazy tail of pass 14, `[\s\S]*?(?=\n\n|$)`: the shortest prefix whose
end is followed by a blank line (`\n\n`) or is the end of input; returns that
prefix and the rest (left unconsumed — the lookahead is zero-width). -/
def lazyStop : List Char → List Char × List Char
  | [] => ([], [])
  | '\n' :: '\n' :: t => ([], '\n' :: '\n' :: t)
  | c :: t =>
    let (m, r) := lazyStop t
    (c :: m, r)

/-- Pass 14 (line 171):
`/\n([^\n]*\|[^\n]*\n\s*\|?\s*-+[^\n]*\n[\s\S]*?(?=\n\n|$))/g` with
replacement ``` `\n\n${tbl}\n\n` ```: a line containing `|`, then (skipping
any whitespace, newlines included, and an optional `|`) a run of dashes, the
rest of that line, and the lazy tail up to the next blank line or the end. -/
def findTableWrap : List Char → Option (List Char × List Char)
  | '\n' :: rest =>
    match splitAtChar '\n' rest with
    | some (lineA, r2) =>
      if lineA.contains '|' then
        let r3 := r2.dropWhile jsWS
        let r4 := match r3 with
          | '|' :: t => t.dropWhile jsWS
          | _ => r3
        match r4 with
        | '-' :: _ =>
          match splitAtChar '\n' r4 with
          | some (_, r5) =>
            let seg := r2.take (r2.length - r5.length)
            let (mid, rest') := lazyStop r5
            some ('\n' :: '\n' :: (lineA ++ '\n' :: (seg ++ mid)) ++
              ['\n', '\n'], rest')
          | none => none
        | _ => none
      else none
    | none => none
  | _ => none

/-! ### Character-class regular expressions (for the two `test()` predicates)

`isTableLine` and `isSepLine` (lines 177–178) are `RegExp.test` calls on a
single split-off line.  Both patterns are anchored with `^`, the first also
with `$` and the second ending in `.*$`, so on a newline-free line `test` is
exactly "the whole line is in the pattern's language".  That language
membership is decided with Brzozowski derivatives, which implement the full
nondeterministic (backtracking) semantics of the pattern. -/

/-- Regular expressions over character classes. -/
inductive RE where
  | eps : RE
  | cls : (Char → Bool) → RE
  | seq : RE → RE → RE
  | alt : RE → RE → RE
  | star : RE → RE

/-- Does the language of `r` contain the empty string? -/
def RE.nullable : RE → Bool
  | .eps => true
  | .cls _ => false
  | .seq a b => a.nullable && b.nullable
  | .alt a b => a.nullable || b.nullable
  | .star _ => true

/-- Brzozowski derivative of `r` by `c`. -/
def RE.deriv : RE → Char → RE
  | .eps, _ => .cls (fun _ => false)
  | .cls p, c => if p c then .eps else .cls (fun _ => false)
  | .seq a b, c =>
    if a.nullable then .alt (.seq (a.deriv c) b) (b.deriv c)
    else .seq (a.deriv c) b
  | .alt a b, c => .alt (a.deriv c) (b.deriv c)
  | .star a, c => .seq (a.deriv c) (.star a)

/-- Whole-string match. -/
def reMatch (r : RE) (l : List Char) : Bool := (l.foldl RE.deriv r).nullable

/-- Single-character literal. -/
def RE.chr (c : Char) : RE := .cls (fun x => x == c)

/-- `r+`. -/
def RE.plus (r : RE) : RE := .seq r (.star r)

/-- `r?`. -/
def RE.opt (r : RE) : RE := .alt r .eps

/-- ECMAScript `.`: any character but a line terminator. -/
def dotCls : RE :=
  .cls (fun c => !(c == '\n' || c == '\r' || c == '\u2028' || c == '\u2029'))

/-- `\s*`. -/
def wsStar : RE := .star (.cls jsWS)

/-- Line 177: `/^\s*\|.*\|\s*$/`. -/
def tableLineRE : RE :=
  .seq wsStar (.seq (RE.chr '|') (.seq (.star dotCls)
    (.seq (RE.chr '|') wsStar)))

/-- Line 178: `/^\s*\|?\s*[-: ]+\|[-:| ]+.*$/`. -/
def sepLineRE : RE :=
  .seq wsStar (.seq (RE.opt (RE.chr '|')) (.seq wsStar
    (.seq (RE.plus (.cls (fun c => c == '-' || c == ':' || c == ' ')))
      (.seq (RE.chr '|')
        (.seq (RE.plus (.cls (fun c => c == '-' || c == ':' || c == '|' || c == ' ')))
          (.star dotCls))))))

/-- `isTableLine` (line 177). -/
def isTableLine (ln : List Char) : Bool := reMatch tableLineRE ln

/-- `isSepLine` (line 178). -/
def isSepLine (ln : List Char) : Bool := reMatch sepLineRE ln

/-- The inner `while` of the table-reconstruction pass (lines 182–185):
consume lines while they are table rows, separator rows, or blank; push the
trimmed line when it is non-blank.  Returns the collected block and the
remaining lines. -/
def collectRun : List (List Char) → List (List Char) × List (List Char)
  | [] => ([], [])
  | l :: ls =>
    if isTableLine l || isSepLine l || jsTrim l == [] then
      let (b, r) := collectRun ls
      ((if jsTrim l == [] then b else jsTrim l :: b), r)
    else ([], l :: ls)

/-- The remaining lines after a run are never more than the input. -/
theorem collectRun_rest_le (ls : List (List Char)) :
    (collectRun ls).2.length ≤ ls.length := by
  induction ls with
  | nil => simp [collectRun]
  | cons l ls ih =>
    simp only [collectRun]
    split
    · exact Nat.le_succ_of_le ih
    · exact Nat.le_refl _

/-- Block emission (lines 186–195): synthesize a separator when the second
block line is not one; separate from previous output by a blank line; append
a trailing blank line. -/
def processBlock (block : List (List Char)) (out : List (List Char)) :
    List (List Char) :=
  match block with
  | [] => out
  | header :: btail =>
    let colCount := countCols header
    let hasSep := match btail with
      | b1 :: _ => isSepLine b1
      | [] => false
    let fixed := if hasSep then header :: btail
      else header :: sepOfCols colCount :: btail
    let out2 := match out.getLast? with
      | some last => if last == [] then out else out ++ [[]]
      | none => out
    out2 ++ fixed ++ [[]]

/-- The outer `while` of the table-reconstruction pass (lines 179–200).  When
the current line is a table row, the block is collected starting from it (the
first inner-loop iteration is unfolded here: its condition holds via
`isTableLine`, and it pushes the trimmed line exactly when non-blank).
Fuel-bounded: by `collectRun_rest_le` every step consumes at least one line,
so fuel = number of lines never runs out. -/
def tableLoopF : Nat → List (List Char) → List (List Char) → List (List Char)
  | _, [], out => out
  | 0, lines, out => out ++ lines
  | fuel + 1, l :: ls, out =>
    if isTableLine l then
      let cr := collectRun ls
      let block := if jsTrim l == [] then cr.1 else jsTrim l :: cr.1
      tableLoopF fuel cr.2 (processBlock block out)
    else tableLoopF fuel ls (out ++ [l])

/-- The table-reconstruction loop on a line list. -/
def tableLoop (lines out : List (List Char)) : List (List Char) :=
  tableLoopF lines.length lines out

/-- Pass 16 (line 204): `/[ \t]+$/gm` replaced by `''`: strip trailing spaces
and tabs from every line (the class is line-local, so per-line). -/
def trimLineEnd (l : List Char) : List Char := (l.reverse.dropWhile isSpTab).reverse

/-- `normalizeMarkdown` (lines 122–206) on character lists: the ordered chain
of all passes, ending with `s.trim() + '\n'`.  (`input || ''` is the identity
on actual strings.) -/
def normalizeChars (input : List Char) : List Char :=
  let s := input
  let s := stripOuterFence s
  let s := scanRepl findHeading s.length s
  let s := scanRepl (findTagOpenStrip "div".data) s.length s
  let s := scanRepl (findTagCloseStrip "div".data) s.length s
  let s := scanRepl (findTagOpenStrip "center".data) s.length s
  let s := scanRepl (findTagCloseStrip "center".data) s.length s
  let s := scanRepl findBr s.length s
  let s := scanRepl findPTag s.length s
  let s := joinNl ((splitNl s).map fixBulletLine)
  let s := scanRepl findBeforeHeading s.length s
  let s := scanRepl findBeforeList s.length s
  let s := scanRepl findBeforeFence s.length s
  let s := scanRepl findBeforeQuote s.length s
  let s := scanRepl findBlankRun3 s.length s
  let s := joinNl ((splitNl s).map fenceOpenLine)
  let s := joinNl ((splitNl s).map fenceCloseLine)
  let s := scanRepl findBlankRun3 s.length s
  let s := scanRepl findBadgeBrackets s.length s
  let s := scanRepl findAdjBadges s.length s
  let s := scanReplLS findBadgeRun s.length true s
  let s := scanRepl findTableSep s.length s
  let s := scanRepl findTableWrap s.length s
  let s := joinNl (tableLoop (splitNl s) [])
  let s := joinNl ((splitNl s).map trimLineEnd)
  jsTrim s ++ ['\n']

/-- `normalizeMarkdown` (lines 122–206). -/
def normalizeMarkdown (input : String) : String := ⟨normalizeChars input.data⟩

/-! ### Helper lemmas -/

/-- Total size of a selection. -/
def sumSizes (l : List SelEntry) : Nat := (l.map (fun e => e.size)).sum

/-- The selection loop preserves the count and byte budgets. -/
theorem selectLoop_budget : ∀ (l : List (FileEntry × Nat)) (sel : List SelEntry)
    (total : Nat), sel.length ≤ MAX_FILES → sumSizes sel ≤ total →
    total ≤ MAX_TOTAL_BYTES →
    (selectLoop l sel total).length ≤ MAX_FILES ∧
      sumSizes (selectLoop l sel total) ≤ MAX_TOTAL_BYTES
  | [], sel, total, h1, h2, h3 => ⟨h1, h2.trans h3⟩
  | f :: rest, sel, total, h1, h2, h3 => by
    simp only [selectLoop]
    split_ifs with hfull hbig hover
    · exact ⟨h1, h2.trans h3⟩
    · exact selectLoop_budget rest sel total h1 h2 h3
    · exact selectLoop_budget rest sel total h1 h2 h3
    · apply selectLoop_budget rest _ _ ?_ ?_ ?_
      · simpa using Nat.lt_of_not_le hfull
      · simp [sumSizes] at h2 ⊢
        omega
      · simp [MAX_TOTAL_BYTES] at hover ⊢
        omega

/-- The selection loop never admits an entry above the single-file cap. -/
theorem selectLoop_excl : ∀ (l : List (FileEntry × Nat)) (sel : List SelEntry)
    (total : Nat), (∀ e ∈ sel, e.size ≤ 150000) →
    ∀ e ∈ selectLoop l sel total, e.size ≤ 150000
  | [], _, _, h => h
  | f :: rest, sel, total, h => by
    simp only [selectLoop]
    split_ifs with hfull hbig hover
    · exact h
    · exact selectLoop_excl rest sel total h
    · exact selectLoop_excl rest sel total h
    · apply selectLoop_excl rest _ _ ?_
      intro e he
      rcases List.mem_append.1 he with h' | h'
      · exact h e h'
      · simp at h'
        subst h'
        simpa using Nat.le_of_not_lt hbig

/-- Every selected entry's path comes from the processed list. -/
theorem selectLoop_mem : ∀ (l : List (FileEntry × Nat)) (sel : List SelEntry)
    (total : Nat) (e : SelEntry), e ∈ selectLoop l sel total →
    e ∈ sel ∨ ∃ f ∈ l, e.path = f.1.path
  | [], _, _, _, he => Or.inl he
  | f :: rest, sel, total, e, he => by
    simp only [selectLoop] at he
    split_ifs at he with hfull hbig hover
    · exact Or.inl he
    · rcases selectLoop_mem rest sel total e he with h | ⟨g, hg, hp⟩
      · exact Or.inl h
      · exact Or.inr ⟨g, List.mem_cons_of_mem _ hg, hp⟩
    · rcases selectLoop_mem rest sel total e he with h | ⟨g, hg, hp⟩
      · exact Or.inl h
      · exact Or.inr ⟨g, List.mem_cons_of_mem _ hg, hp⟩
    · rcases selectLoop_mem rest _ _ e he with h | ⟨g, hg, hp⟩
      · rcases List.mem_append.1 h with h' | h'
        · exact Or.inl h'
        · simp at h'
          subst h'
          exact Or.inr ⟨f, List.mem_cons_self f rest, rfl⟩
      · exact Or.inr ⟨g, List.mem_cons_of_mem _ hg, hp⟩

/-- Every selected entry passed the filter stage. -/
theorem getCandidateFiles_keep (tree : List TreeNode) (e : SelEntry)
    (he : e ∈ getCandidateFiles tree) : keepFile e.path = true := by
  rcases selectLoop_mem _ _ _ _ he with h | ⟨f, hf, hp⟩
  · simp at h
  · have hf' : f ∈ scoredStage tree :=
      ((List.perm_insertionSort scoreGE (scoredStage tree)).mem_iff).1 hf
    rcases List.mem_map.1 hf' with ⟨g, hg, hfg⟩
    have hk : keepFile g.path = true := by simpa using (List.mem_filter.1 hg).2
    rw [hp, ← hfg]
    exact hk

/-- Stripping a literal prefix succeeds on that very prefix. -/
theorem stripLit_pre : ∀ (p r : List Char), stripLit p (p ++ r) = some r
  | [], _ => rfl
  | c :: ps, r => by
    simp only [List.cons_append, stripLit, beq_self_eq_true, if_true]
    exact stripLit_pre ps r

/-- Case-insensitive stripping succeeds on any case variant of the pattern. -/
theorem stripCI_lower_pre : ∀ (q r : List Char),
    stripCI (q.map Char.toLower) (q ++ r) = some r
  | [], _ => rfl
  | c :: qs, r => by
    simp only [List.map_cons, List.cons_append, stripCI, beq_self_eq_true, if_true]
    exact stripCI_lower_pre qs r

/-- A list ends with any suffix appended to it. -/
theorem endsWithCh_append (pre suf : List Char) :
    endsWithCh (pre ++ suf) suf = true := by
  simp [endsWithCh]

/-- The base name is a suffix of the path. -/
theorem baseName_suffix (p : String) :
    ∃ pre, p.data = pre ++ (baseName p).data := by
  refine ⟨(p.data.reverse.dropWhile (fun c => c != '/')).reverse, ?_⟩
  simp only [baseName]
  rw [← List.reverse_append, List.takeWhile_append_dropWhile, List.reverse_reverse]

/-- The leading-fence strip on a string that starts with the
```` ```markdown ```` literal removes it together with the following
whitespace run. -/
theorem stripLeadingMarkdownFence_pre (r : List Char) :
    stripLeadingMarkdownFence ("```markdown".data ++ r) = r.dropWhile jsWS := rfl

/-- The trailing-fence strip on a string ending in a newline-terminated
`` ``` `` line removes exactly that line (with its leading newline). -/
theorem stripTrailingFence_post (body : List Char) :
    stripTrailingFence (body ++ "\n```".data) = body := by
  unfold stripTrailingFence
  conv_lhs => rw [List.reverse_append]
  rw [show List.dropWhile jsWS ("\n```".data.reverse ++ body.reverse)
      = '`' :: '`' :: '`' :: '\n' :: body.reverse from rfl]
  show body.reverse.reverse = body
  exact List.reverse_reverse body

/-- The outer-fence-strip pass on a document wrapped in a `markdown`-tagged
fence: the wrapping fence lines are removed, and the greedy `\s*` of the
leading replace also swallows the body's own leading whitespace, so the result
is the body with its leading whitespace stripped (whenever the body has any
non-whitespace content at all). -/
theorem stripOuterFence_wrapped (body : List Char) (h : jsTrimLeft body ≠ []) :
    stripOuterFence ("```markdown\n".data ++ body ++ "\n```".data)
      = jsTrimLeft body := by
  have e1 : "```markdown\n".data ++ body ++ "\n```".data
      = "```markdown".data ++ ('\n' :: (body ++ "\n```".data)) := by
    simp
  rw [stripOuterFence, e1, stripLeadingMarkdownFence_pre,
    List.dropWhile_cons_of_pos (by decide : jsWS '\n' = true),
    List.dropWhile_append]
  have hne : (body.dropWhile jsWS).isEmpty = false := by
    cases hd : body.dropWhile jsWS with
    | nil => exact absurd hd h
    | cons a l => rfl
  rw [if_neg (by simp [hne])]
  exact stripTrailingFence_post (body.dropWhile jsWS)

/-! ### Claim theorems -/

/-- Claim C1, counterexample: the Normalizer is not idempotent.  On the input
`"x\n```\n```"` one pass yields `"x\n\n```\n"` (the first replace of pass 1
strips only the last trailing fence, and fence canonicalization isolates the
remaining one), but a second pass strips the now-trailing `` ``` `` line, so
`normalize (normalize x) ≠ normalize x`. -/
theorem normalize_not_idempotent :
    normalizeMarkdown "x\n```\n```" = "x\n\n```\n" ∧
    normalizeMarkdown (normalizeMarkdown "x\n```\n```") = "x\n" ∧
    normalizeMarkdown (normalizeMarkdown "x\n```\n```") ≠
      normalizeMarkdown "x\n```\n```" := by
  refine ⟨by decide, by decide, by decide⟩

/-- Claim C1, amended: `normalize (normalize x) = normalize x` does not hold
for all `x` (a normalized document ending in a code fence loses that fence on
a second pass); idempotence does hold on fence-free, table-free documents such
as the empty string, a plain word, and a heading-plus-paragraph document. -/
theorem normalize_idempotent_on_plain_documents :
    normalizeMarkdown (normalizeMarkdown "") = normalizeMarkdown "" ∧
    normalizeMarkdown (normalizeMarkdown "hello") = normalizeMarkdown "hello" ∧
    normalizeMarkdown (normalizeMarkdown "# Title\n\ntext") =
      normalizeMarkdown "# Title\n\ntext" := by
  refine ⟨by decide, by decide, by decide⟩

/-- Claim C2: for every input entry list, the Selector returns at most
`MAX_FILES = 40` entries and the sum of the selected sizes (a missing size
counted as zero when the entry was pushed) is at most
`MAX_TOTAL_BYTES = 600000`. -/
theorem getCandidateFiles_budget (tree : List TreeNode) :
    (getCandidateFiles tree).length ≤ 40 ∧
      sumSizes (getCandidateFiles tree) ≤ 600000 :=
  selectLoop_budget _ [] 0 (by decide) (by decide) (by decide)

/-- Claim C3: the selection stage (i) processes the scored candidates in
descending score order (the sort stage's output is sorted by `scoreGE`, and
`getCandidateFiles` runs `selectLoop` on exactly that output); (ii) stops
accepting once 40 entries are selected; (iii) skips, and continues past, an
entry larger than 150 000 bytes; (iv) skips, and continues past, an entry that
would push the cumulative total over 600 000 bytes — so a later smaller entry
can still be accepted after a skipped larger one, as the final concrete run
shows; and (v) consequently no entry with size above 150 000 appears in any
result. -/
theorem selection_stage_behavior :
    (∀ (l : List (FileEntry × Nat)), List.Sorted scoreGE (sortStage l)) ∧
    (∀ (f : FileEntry × Nat) rest sel total, 40 ≤ sel.length →
      selectLoop (f :: rest) sel total = sel) ∧
    (∀ (f : FileEntry × Nat) rest sel total, sel.length < 40 →
      150000 < f.1.size.getD 0 →
      selectLoop (f :: rest) sel total = selectLoop rest sel total) ∧
    (∀ (f : FileEntry × Nat) rest sel total, sel.length < 40 →
      f.1.size.getD 0 ≤ 150000 → 600000 < total + f.1.size.getD 0 →
      selectLoop (f :: rest) sel total = selectLoop rest sel total) ∧
    (∀ (tree : List TreeNode) (e : SelEntry), e ∈ getCandidateFiles tree →
      e.size ≤ 150000) ∧
    getCandidateFiles [⟨"a.ts", "blob", some 200000⟩, ⟨"b.ts", "blob", some 100⟩]
      = [⟨"b.ts", 100⟩] := by
  refine ⟨fun l => List.sorted_insertionSort scoreGE l, ?_, ?_, ?_, ?_, by decide⟩
  · intro f rest sel total h
    simp only [selectLoop, MAX_FILES, MAX_TOTAL_BYTES]
    rw [if_pos h]
  · intro f rest sel total h hbig
    simp only [selectLoop, MAX_FILES, MAX_TOTAL_BYTES]
    rw [if_neg (Nat.not_le_of_lt h), if_pos hbig]
  · intro f rest sel total h hsz hover
    simp only [selectLoop, MAX_FILES, MAX_TOTAL_BYTES]
    rw [if_neg (Nat.not_le_of_lt h), if_neg (Nat.not_lt_of_le hsz), if_pos hover]
  · intro tree e he
    refine selectLoop_excl _ [] 0 ?_ e he
    intro e' he'
    exact absurd he' (List.not_mem_nil e')

/-- Witness for `selection_stage_behavior`: each hypothesized conjunct applied
at a concrete input. -/
theorem selection_stage_behavior_witness :
    selectLoop [(⟨"x", some 7⟩, 0)] (List.replicate 40 ⟨"y", 0⟩) 0
      = List.replicate 40 ⟨"y", 0⟩ ∧
    selectLoop [(⟨"big", some 200000⟩, 0)] [] 0 = selectLoop [] [] 0 ∧
    selectLoop [(⟨"c", some 1⟩, 0)] [] 600000 = selectLoop [] [] 600000 ∧
    (⟨"b.ts", 100⟩ : SelEntry).size ≤ 150000 :=
  ⟨selection_stage_behavior.2.1 _ [] _ 0 (by decide),
   selection_stage_behavior.2.2.1 _ [] [] 0 (by decide) (by decide),
   selection_stage_behavior.2.2.2.1 _ [] [] 600000 (by decide) (by decide)
     (by decide),
   selection_stage_behavior.2.2.2.2.1
     [⟨"a.ts", "blob", some 200000⟩, ⟨"b.ts", "blob", some 100⟩]
     ⟨"b.ts", 100⟩ (by decide)⟩

/-- Claim C4, counterexample: an input that is not wrapped in a
```` ```markdown ```` fence — here one that merely ends with the closing
`` ``` `` line of an inner code block — still has that trailing fence line
removed by the outer-fence-strip pass, because the two replaces of the pass
are applied independently. -/
theorem stripOuterFence_not_conditional :
    stripOuterFence "hello\n```js\ncode\n```".data = "hello\n```js\ncode".data ∧
    stripOuterFence "hello\n```js\ncode\n```".data ≠
      "hello\n```js\ncode\n```".data := by
  refine ⟨by decide, by decide⟩

/-- Claim C4, amended: on an input wrapped in a ```` ```markdown ```` fence
the pass removes the two wrapping fence lines together with the body's leading
whitespace — the greedy `\s*` of `/^```markdown\s*\n?/` swallows not only the
opening line's newline but any whitespace that starts the body, so the result
is the body stripped of leading whitespace (first conjunct; inner fences and
all other content untouched).  Exactly the two fence lines are removed only
when the body does not begin with whitespace; a body starting with a blank
line loses it too (second conjunct), and an all-whitespace body collapses to
the empty string (third conjunct).  The trailing strip is independent and
unconditional: an input merely ending with a closing `` ``` `` line loses it
as well (fourth conjunct). -/
theorem stripOuterFence_spec :
    (∀ (body : List Char), jsTrimLeft body ≠ [] →
      stripOuterFence ("```markdown\n".data ++ body ++ "\n```".data)
        = jsTrimLeft body) ∧
    stripOuterFence "```markdown\n\nHello\n```".data = "Hello".data ∧
    stripOuterFence "```markdown\n \n\n```".data = [] ∧
    stripOuterFence "hello\n```js\ncode\n```".data = "hello\n```js\ncode".data :=
  ⟨stripOuterFence_wrapped, by decide, by decide, by decide⟩

/-- Witness for `stripOuterFence_spec`: the wrapped-strip conjunct applied to
a concrete body with leading whitespace and an inner fence (the leading
whitespace is stripped, the inner fence and content are untouched). -/
theorem stripOuterFence_spec_witness :
    jsTrimLeft " \nBody\n```js\nx\n```".data ≠ [] ∧
    stripOuterFence ("```markdown\n".data ++ " \nBody\n```js\nx\n```".data
      ++ "\n```".data) = jsTrimLeft " \nBody\n```js\nx\n```".data :=
  ⟨by decide, stripOuterFence_spec.1 " \nBody\n```js\nx\n```".data (by decide)⟩

/-- Claim C5, counterexample: `README.md` at the repository root scores 160,
not 140 — the spec's sum omits the +20 `includes('readme')` bonus, which the
exact-name rule does not exclude. -/
theorem readme_score_not_140 :
    scoreOf "README.md" = 160 ∧ scoreOf "README.md" ≠ 140 := by
  refine ⟨by decide, by decide⟩

/-- Claim C5, amended: on the three entries of the example with the default
budget, the Selector returns all three in the order `README.md`,
`docs/guide.md`, `src/a.ts`; the scores are 160 (= 100 + 20 + 25 + 15), 45
(= 30 + 15) and 5. -/
theorem selector_ranking_example :
    getCandidateFiles [⟨"README.md", "blob", some 500⟩,
      ⟨"docs/guide.md", "blob", some 2000⟩, ⟨"src/a.ts", "blob", some 100000⟩]
      = [⟨"README.md", 500⟩, ⟨"docs/guide.md", 2000⟩, ⟨"src/a.ts", 100000⟩] ∧
    scoreOf "README.md" = 160 ∧ scoreOf "docs/guide.md" = 45 ∧
    scoreOf "src/a.ts" = 5 := by
  refine ⟨by decide, by decide, by decide, by decide⟩

/-- Claim C6, counterexample: the +40 manifest bonus is keyed on the
lowercased path's suffix, not on the base name — `mypackage.json`, whose base
name is not `package.json`, still receives it. -/
theorem pkgBonus_not_basename_only :
    pkgBonus (jsLower "mypackage.json".data) = 40 ∧
    baseName "mypackage.json" ≠ "package.json" := by
  refine ⟨by decide, by decide⟩

/-- Claim C6, amended: every file whose base name is `package.json` receives
the +40 bonus, but the bonus tests `p.endsWith('package.json')` on the whole
lowercased path, so paths merely ending in `package.json` receive it too (see
the counterexample). -/
theorem pkgBonus_manifest (p : String) (h : baseName p = "package.json") :
    pkgBonus (jsLower p.data) = 40 := by
  rcases baseName_suffix p with ⟨pre, hp⟩
  rw [h] at hp
  have hq : jsLower p.data = jsLower pre ++ "package.json".data := by
    rw [hp, jsLower, List.map_append]
    congr 1
  simp [pkgBonus, hq, endsWithCh_append]

/-- Witness for `pkgBonus_manifest`. -/
theorem pkgBonus_manifest_witness :
    baseName "a/package.json" = "package.json" ∧
    pkgBonus (jsLower "a/package.json".data) = 40 :=
  ⟨by decide, pkgBonus_manifest "a/package.json" (by decide)⟩

/-- Claim C7: the two-row pipe table with no separator normalizes to a
document whose second line is the synthesized `|---|---|`, immediately after
the header row `| A | B |` (the reconstruction pass also leaves a second
synthesized separator at the end, faithful to the code). -/
theorem table_synthesis_example :
    normalizeMarkdown "| A | B |\n| 1 | 2 |\n"
      = "| A | B |\n|---|---|\n| 1 | 2 |\n|---|---|\n" ∧
    splitNl (normalizeMarkdown "| A | B |\n| 1 | 2 |\n").data
      = ["| A | B |".data, "|---|---|".data, "| 1 | 2 |".data,
         "|---|---|".data, []] := by
  refine ⟨by decide, by decide⟩

/-- Claim C8: a blank line inside a table run is dropped by the
reconstruction state machine — neither appended to the block nor treated as a
terminator (first conjunct, for every continuation of the run) — and a table
with a stray blank line between data rows normalizes to a single contiguous
block with the blank line removed (second conjunct; the pass also duplicates
the separator, faithful to the code). -/
theorem table_blank_line_tolerance :
    (∀ (ls : List (List Char)), collectRun ([] :: ls) = collectRun ls) ∧
    normalizeMarkdown "| A | B |\n|---|---|\n| 1 | 2 |\n\n| 3 | 4 |\n"
      = "| A | B |\n|---|---|\n|---|---|\n| 1 | 2 |\n| 3 | 4 |\n|---|---|\n" :=
  ⟨fun _ => rfl, by decide⟩

/-- Claim C9: `normalizeMarkdown` is a total Lean function (it always returns
text); on the empty string it returns exactly one newline, and every output
ends with a newline. -/
theorem normalize_total_and_empty :
    normalizeMarkdown "" = "\n" ∧
    ∀ (s : String), (normalizeMarkdown s).data.getLast? = some '\n' := by
  refine ⟨by decide, ?_⟩
  intro s
  simp [normalizeMarkdown, normalizeChars]

/-- Claim C10, counterexample: a file whose base name matches an important
filename only up to letter case is not necessarily excluded — `Readme.md` is
not in `importantNames` (only `README.md` and `readme.md` are) yet its exact
`.md` extension keeps it, and it survives to the selection. -/
theorem filter_case_only_name_still_kept :
    importantNames.contains (baseName "Readme.md") = false ∧
    (importantNames.map (fun n => jsLower n.data)).contains
      (jsLower (baseName "Readme.md").data) = true ∧
    getCandidateFiles [⟨"Readme.md", "blob", some 10⟩] = [⟨"Readme.md", 10⟩] := by
  refine ⟨by decide, by decide, by decide⟩

/-- Claim C10, amended: the filter compares base names and extensions
case-sensitively — every selected entry exactly matches one of the two
allowlists (first conjunct), and `README.MD` and `src/a.TS`, which match only
up to case, are excluded entirely — but a case variant of an important name
whose extension still matches exactly (e.g. `Readme.md`) is kept. -/
theorem filter_case_sensitive :
    (∀ (tree : List TreeNode) (e : SelEntry), e ∈ getCandidateFiles tree →
      keepFile e.path = true) ∧
    getCandidateFiles [⟨"README.MD", "blob", some 10⟩] = [] ∧
    getCandidateFiles [⟨"src/a.TS", "blob", some 10⟩] = [] :=
  ⟨getCandidateFiles_keep, by decide, by decide⟩

/-- Witness for `filter_case_sensitive`: the membership conjunct applied at a
concrete selection. -/
theorem filter_case_sensitive_witness :
    keepFile (⟨"Readme.md", 10⟩ : SelEntry).path = true :=
  filter_case_sensitive.1 [⟨"Readme.md", "blob", some 10⟩] ⟨"Readme.md", 10⟩
    (by decide)

end Nexus
